import Mathlib

/-!
Verification of the finger-controlled snake game
(`src/config.py`, `src/game/snake.py`, `src/game/tracker.py`,
`src/game/food.py`, `src/game/utils.py`).

Shallow-embedding conventions used throughout this file:

* Python floats are idealised as real numbers `ℝ` where square roots
  enter the arithmetic (the snake geometry built from `math.hypot`), and
  as rationals `ℚ` where the code only performs field operations on
  machine-representable values (the position smoother, timers, the food
  logic); every IEEE double is itself a rational number.
* `math.hypot x y` is `Real.sqrt (x ^ 2 + y ^ 2)`.  Where the code only
  compares a `hypot` value against a fixed nonnegative bound and never
  uses the value itself, we use the equivalent comparison of squares
  (`hypot x y > b ↔ x ^ 2 + y ^ 2 > b ^ 2` for `b ≥ 0`), which keeps the
  definition executable over `ℤ`/`ℚ`.
* A stateful method becomes a pure function from the old state (together
  with everything else the method reads: the current `time.time()`, the
  stream of `random` draws, the sensor outcome for the frame) to the new
  state and the returned value.
-/

namespace SnakeGame

/-! ## Constants from `src/config.py` -/

def GAME_WIDTH : ℕ := 800

def GAME_HEIGHT : ℕ := 600

def INITIAL_LENGTH : ℕ := 7

def GROWTH_RATE : ℤ := 2

def MIN_DISTANCE_TO_MOVE : ℝ := 2

def MAX_SPEED : ℝ := 4

def SEGMENT_SPACING : ℝ := 5

def SELF_COLLISION_IGNORE : ℕ := 5

def COLLISION_THRESHOLD : ℝ := 10

def SMOOTHING_WINDOW : ℕ := 15

def SMOOTHING_FACTOR : ℚ := 15 / 100

/-! ## Hand tracker (`src/game/tracker.py`)

`HandTracker.find_finger_position` converts the detected index-finger
landmark into integer pixel coordinates (`x = int(...)`, `y = int(...)`),
so camera-space points are pairs of integers. -/

/-- Camera-space pixel position (integer coordinates). -/
abbrev Px := ℤ × ℤ

/-- The part of `HandTracker`'s state that its position output depends
on: `self.prev_position`. -/
structure HandTracker where
  prev_position : Option Px
deriving DecidableEq

/-- The jump-rejection test `math.hypot(dx, dy) > 200` from
`HandTracker.find_finger_position`, written as the equivalent integer
comparison of squared distances (for the nonnegative bound 200,
`hypot dx dy > 200 ↔ dx ^ 2 + dy ^ 2 > 200 ^ 2`). -/
def jumpTooFar (prev new_pos : Px) : Bool :=
  decide ((new_pos.1 - prev.1) ^ 2 + (new_pos.2 - prev.2) ^ 2 > 200 ^ 2)

/-- `HandTracker.find_finger_position`, restricted to its tracking state
and return value (the drawing on the camera frame is ignored).  The
sensor outcome for the frame is passed as `det` (`some p`: a hand was
detected with the index tip at pixel `p`; `none`: no hand).  Returns the
updated tracker, the emitted position, and the detected flag. -/
def find_finger_position (t : HandTracker) (det : Option Px) :
    HandTracker × Option Px × Bool :=
  match det with
  | some new_pos =>
    match t.prev_position with
    | some prev =>
      if jumpTooFar prev new_pos then
        (t, some prev, true)
      else
        ({ prev_position := some new_pos }, some new_pos, true)
    | none => ({ prev_position := some new_pos }, some new_pos, true)
  | none => (t, t.prev_position, false)

/-- Fold `find_finger_position` over a list of per-frame sensor
outcomes, collecting the emitted `(position, detected)` pairs in
order. -/
def runTracker (t : HandTracker) : List (Option Px) → HandTracker × List (Option Px × Bool)
  | [] => (t, [])
  | d :: ds =>
    let r := find_finger_position t d
    let rest := runTracker r.1 ds
    (rest.1, r.2 :: rest.2)

/-! ## Claim C4 -/

/-- C4: if a hand is detected and the new raw finger point lies farther
than the jump threshold (200 px) from the previously stored point, the
tracker emits the previous stable point (still with `detected = true`)
instead of the new one and leaves its state unchanged: a single outlier
sample does not change the emitted point. -/
theorem C4_outlier_rejected (t : HandTracker) (prev new_pos : Px)
    (hprev : t.prev_position = some prev)
    (hfar : jumpTooFar prev new_pos = true) :
    find_finger_position t (some new_pos) = (t, some prev, true) := by
  simp [find_finger_position, hprev, hfar]

/-- Witness for C4 at a concrete input: stored point `(0, 0)`, new
sample `(300, 0)`, distance 300 > 200. -/
theorem C4_outlier_rejected_witness :
    (⟨some (0, 0)⟩ : HandTracker).prev_position = some (0, 0) ∧
    jumpTooFar (0, 0) (300, 0) = true ∧
    find_finger_position ⟨some (0, 0)⟩ (some (300, 0)) =
      (⟨some (0, 0)⟩, some (0, 0), true) :=
  ⟨rfl, by decide, C4_outlier_rejected _ _ _ rfl (by decide)⟩

/-! ## Claim C10 -/

/-- C10: the jump-rejection branch never updates `prev_position` (only
accepted points do), so the jump test keeps comparing against the last
accepted point: for any run of detections that are all farther than
200 px from the stored point, every emitted output is that same stored
point and the tracker state never changes — not only a single glitch
sample is replaced. -/
theorem C10_rejection_keeps_prev (t : HandTracker) (prev : Px)
    (dets : List Px)
    (hprev : t.prev_position = some prev)
    (hfar : ∀ d ∈ dets, jumpTooFar prev d = true) :
    runTracker t (dets.map some) =
      (t, dets.map fun _ => (some prev, true)) := by
  induction dets with
  | nil => simp [runTracker]
  | cons d ds ih =>
    have hd : jumpTooFar prev d = true := hfar d (by simp)
    have ihd := ih fun x hx => hfar x (by simp [hx])
    simp [runTracker, find_finger_position, hprev, hd, ihd]

/-- Witness for C10 at a concrete input: stored point `(0, 0)` and two
consecutive far detections `(300, 0)` and `(0, 250)`; both are replaced
by the stored point and the state is unchanged. -/
theorem C10_rejection_keeps_prev_witness :
    (⟨some (0, 0)⟩ : HandTracker).prev_position = some (0, 0) ∧
    (∀ d ∈ [((300 : ℤ), (0 : ℤ)), (0, 250)], jumpTooFar (0, 0) d = true) ∧
    runTracker ⟨some (0, 0)⟩ ([((300 : ℤ), (0 : ℤ)), (0, 250)].map some) =
      (⟨some (0, 0)⟩, [(some (0, 0), true), (some (0, 0), true)]) := by
  refine ⟨rfl, by decide, ?_⟩
  have h := C10_rejection_keeps_prev ⟨some (0, 0)⟩ (0, 0)
    [(300, 0), (0, 250)] rfl (by decide)
  simpa using h

/-! ## Food (`src/game/food.py`)

Food positions are integer pixel pairs (`random.randint` draws); snake
segments reaching the clearance test are float pairs, modelled as `ℚ`.
The stream of random draws made by `self.spawn()` inside `respawn` is
passed in explicitly. -/

def SNAKE_SEGMENT_SIZE : ℚ := 14

def FOOD_SIZE : ℚ := 15

/-- The state of a `Food` object (drawing-only fields `color`/`colors`
are omitted). -/
structure Food where
  size : ℚ
  score : ℤ
  boost_duration : ℚ
  position : Px
  visible : Bool
  respawn_timer : ℚ
  cooldown_time : ℚ
  pulse_phase : ℚ
  is_bonus : Bool
deriving DecidableEq

/-- The clearance test inside `Food.respawn`: a candidate position is
valid iff no snake segment is strictly within
`SNAKE_SEGMENT_SIZE + self.size + 10` of it.  The code's
`math.hypot(dx, dy) < bound` is written as the equivalent comparison of
squares (the bound is positive). -/
def foodPosValid (size : ℚ) (segs : List (ℚ × ℚ)) (new_pos : Px) : Bool :=
  segs.all fun s =>
    decide (¬(((new_pos.1 : ℚ) - s.1) ^ 2 + ((new_pos.2 : ℚ) - s.2) ^ 2 <
        (SNAKE_SEGMENT_SIZE + size + 10) ^ 2))

/-- The retry loop of `Food.respawn` (`while attempts < 100`): scan up
to `attempts` candidate positions — the successive draws of
`self.spawn()` — and return the first valid one, if any. -/
def findSpot (size : ℚ) (segs : List (ℚ × ℚ)) :
    ℕ → List Px → Option Px
  | 0, _ => none
  | _, [] => none
  | n + 1, c :: cs =>
    if foodPosValid size segs c then some c else findSpot size segs n cs

/-- `Food.respawn`.  `now` is the `time.time()` value, `cands` the
stream of random positions drawn by `self.spawn()` inside the retry
loop, `fallback` the draw of the final fallback `self.spawn()`.  The
method first sets `visible = False`, schedules
`respawn_timer = now + cooldown_time` and resets the pulse, then
searches for a clear spot — and on BOTH exits (valid spot found, or the
100-attempt fallback) it sets `visible = True` again before
returning. -/
def respawn (f : Food) (now : ℚ) (segs : List (ℚ × ℚ))
    (cands : List Px) (fallback : Px) : Food :=
  let f1 : Food :=
    { f with visible := false, respawn_timer := now + f.cooldown_time,
             pulse_phase := 0 }
  match findSpot f.size segs 100 cands with
  | some c => { f1 with position := c, visible := true }
  | none => { f1 with position := fallback, visible := true }

/-- `Food.update`: re-show the food once the respawn timer has elapsed
(`if not self.visible and time.time() >= self.respawn_timer`), then
advance the pulse animation. -/
def foodUpdate (f : Food) (now : ℚ) : Food :=
  let f1 : Food :=
    if f.visible = false ∧ f.respawn_timer ≤ now then { f with visible := true }
    else f
  { f1 with pulse_phase := f1.pulse_phase + 12 / 100 }

/-- `Food.check_collision`: true iff the food is visible and the snake
head is strictly within `self.size + SNAKE_SEGMENT_SIZE // 2` of its
position (in Python `SNAKE_SEGMENT_SIZE // 2 = 7`; squared-distance
form of the `math.hypot` comparison). -/
def check_collision (f : Food) (head : ℚ × ℚ) : Bool :=
  if f.visible = false then false
  else
    decide ((head.1 - (f.position.1 : ℚ)) ^ 2 + (head.2 - (f.position.2 : ℚ)) ^ 2 <
      (f.size + 7) ^ 2)

/-- A `RegularFood` as built by `RegularFood.__init__` with initial
spawn draw `pos`: size `FOOD_SIZE`, score 1, no boost, visible, and
`cooldown_time = 0.5` ("Regular food respawns quickly"). -/
def mkRegularFood (pos : Px) : Food :=
  { size := FOOD_SIZE, score := 1, boost_duration := 0, position := pos,
    visible := true, respawn_timer := 0, cooldown_time := 1 / 2,
    pulse_phase := 0, is_bonus := false }

/-! ## Claim C2

The claim says a consumed regular item becomes invisible and stays
invisible until the scheduled `respawn_timer` elapses.  In the code both
exit paths of `Food.respawn` end with `self.visible = True`, so the item
is visible again (at a new position) the moment `respawn` returns and
the scheduled cooldown never takes effect — `Food.update`'s reappearance
check is dead code for consumed items. -/

/-- C2 (code evaluation): for EVERY food state, consumption time, snake
chain, and random stream, `Food.respawn` returns with `visible = true`
(while still scheduling `respawn_timer = now + cooldown_time`), so the
item does not remain invisible for the scheduled cooldown. -/
theorem C2_respawn_returns_visible (f : Food) (now : ℚ)
    (segs : List (ℚ × ℚ)) (cands : List Px) (fallback : Px) :
    (respawn f now segs cands fallback).visible = true ∧
    (respawn f now segs cands fallback).respawn_timer = now + f.cooldown_time := by
  unfold respawn
  cases findSpot f.size segs 100 cands <;> simp

/-! ## Position smoother (`FingerSnakeGame.smooth_position`,
`src/game/utils.py` lines 162-192)

The values entering the smoother are mapped game coordinates (integer
pairs); all smoother arithmetic is field arithmetic, modelled exactly
over `ℚ`. -/

/-- Stage 1 of `smooth_position`: the weighted moving average computed
by the `for i, pos in enumerate(self.position_history)` loop.  The loop
accumulates `weighted_x`, `weighted_y` and `total_weight` with weight
`(i + 1) / len(history)` for the i-th oldest retained sample, then
divides. -/
def stage1 (hist : List (ℚ × ℚ)) : ℚ × ℚ :=
  let n : ℚ := (hist.length : ℚ)
  let total_weight := (hist.enum.map fun ip => (((ip.1 : ℚ) + 1) / n)).sum
  let weighted_x := (hist.enum.map fun ip => ip.2.1 * (((ip.1 : ℚ) + 1) / n)).sum
  let weighted_y := (hist.enum.map fun ip => ip.2.2 * (((ip.1 : ℚ) + 1) / n)).sum
  (weighted_x / total_weight, weighted_y / total_weight)

/-- Modelled from the spec's words for claim C5 (the refinement target,
NOT translated from the code): the weighted average in which the i-th
oldest retained sample has weight `(i + 1) / sum(1..n)`, i.e. output
`(Σ (i+1)·pᵢ) / (Σ_(k=1..n) k)`. -/
def specStage1 (hist : List (ℚ × ℚ)) : ℚ × ℚ :=
  let den : ℚ := ((List.range hist.length).map fun (k : ℕ) => ((k : ℚ) + 1)).sum
  ((hist.enum.map fun ip => ((ip.1 : ℚ) + 1) * ip.2.1).sum / den,
   (hist.enum.map fun ip => ((ip.1 : ℚ) + 1) * ip.2.2).sum / den)

/-- Smoothing state of `FingerSnakeGame`: `self.smooth_pos` and
`self.position_history`. -/
structure Smoother where
  smooth_pos : Option (ℚ × ℚ)
  position_history : List (ℚ × ℚ)

/-- Appending to `deque(maxlen=SMOOTHING_WINDOW)`: keep the most recent
`SMOOTHING_WINDOW` samples. -/
def pushHistory (hist : List (ℚ × ℚ)) (p : ℚ × ℚ) : List (ℚ × ℚ) :=
  let h := hist ++ [p]
  h.drop (h.length - SMOOTHING_WINDOW)

/-- `FingerSnakeGame.smooth_position`: append to the history, take the
stage-1 weighted moving average, then stage-2 exponential smoothing, and
return the integer-truncated point (`int()`; game coordinates are
nonnegative, where truncation coincides with `Int.floor`). -/
def smooth_position (st : Smoother) (new_pos : Option (ℚ × ℚ)) :
    Smoother × Option (ℤ × ℤ) :=
  match new_pos with
  | none => (st, none)
  | some p =>
    let hist := pushHistory st.position_history p
    let averaged := if hist = [] then p else stage1 hist
    let sp :=
      match st.smooth_pos with
      | none => averaged
      | some s =>
          (s.1 * (1 - SMOOTHING_FACTOR) + averaged.1 * SMOOTHING_FACTOR,
           s.2 * (1 - SMOOTHING_FACTOR) + averaged.2 * SMOOTHING_FACTOR)
    ({ smooth_pos := some sp, position_history := hist }, some (⌊sp.1⌋, ⌊sp.2⌋))

/-! ## Claim C5 -/

/-- Dividing every summand by a constant divides the sum. -/
theorem sum_map_div {α : Type} (l : List α) (f : α → ℚ) (c : ℚ) :
    (l.map fun x => f x / c).sum = (l.map f).sum / c := by
  induction l with
  | nil => simp
  | cons a l ih => simp [ih, add_div]

/-- Cancelling a common nonzero divisor of numerator and denominator. -/
theorem div_div_same_cancel (a b n : ℚ) (hn : n ≠ 0) :
    (a / n) / (b / n) = a / b := by
  rcases eq_or_ne b 0 with hb | hb
  · simp [hb]
  · field_simp

/-- C5: for every non-empty position history of at most
`SMOOTHING_WINDOW` samples, the stage-1 output of `smooth_position`
equals the weighted average in which the i-th oldest retained sample
has weight `(i+1)/sum(1..n)` (linearly increasing recency weighting;
with fewer than `SMOOTHING_WINDOW` samples it averages over what
exists). -/
theorem C5_stage1_is_recency_weighted_average (hist : List (ℚ × ℚ))
    (hne : hist ≠ []) (hlen : hist.length ≤ SMOOTHING_WINDOW) :
    stage1 hist = specStage1 hist := by
  have hn : ((hist.length : ℚ)) ≠ 0 := by
    have h0 : hist.length ≠ 0 := fun h => hne (List.length_eq_zero.mp h)
    exact_mod_cast h0
  have h1 : hist.enum.map (fun ip => (((ip.1 : ℚ) + 1) / (hist.length : ℚ)))
      = (List.range hist.length).map
          fun (k : ℕ) => (((k : ℚ) + 1) / (hist.length : ℚ)) := by
    conv_rhs => rw [← List.enum_map_fst hist]
    rw [List.map_map]
    rfl
  have hw : (hist.enum.map fun ip => (((ip.1 : ℚ) + 1) / (hist.length : ℚ))).sum
      = ((List.range hist.length).map fun (k : ℕ) => ((k : ℚ) + 1)).sum / (hist.length : ℚ) := by
    rw [h1]
    exact sum_map_div (List.range hist.length)
      (fun (k : ℕ) => ((k : ℚ) + 1)) ((hist.length : ℚ))
  have hx : (hist.enum.map fun ip => ip.2.1 * (((ip.1 : ℚ) + 1) / (hist.length : ℚ))).sum
      = (hist.enum.map fun ip => ((ip.1 : ℚ) + 1) * ip.2.1).sum / (hist.length : ℚ) := by
    rw [← sum_map_div]
    congr 1
    refine List.map_congr_left fun ip _ => ?_
    ring
  have hy : (hist.enum.map fun ip => ip.2.2 * (((ip.1 : ℚ) + 1) / (hist.length : ℚ))).sum
      = (hist.enum.map fun ip => ((ip.1 : ℚ) + 1) * ip.2.2).sum / (hist.length : ℚ) := by
    rw [← sum_map_div]
    congr 1
    refine List.map_congr_left fun ip _ => ?_
    ring
  simp only [stage1, specStage1, hx, hy, hw]
  rw [div_div_same_cancel _ _ _ hn, div_div_same_cancel _ _ _ hn]

/-- Witness for C5 at a concrete input: the two-sample history
`[(1, 2), (9, 4)]` (weights 1/3 and 2/3). -/
theorem C5_stage1_is_recency_weighted_average_witness :
    ([((1 : ℚ), (2 : ℚ)), (9, 4)] ≠ ([] : List (ℚ × ℚ))) ∧
    ([((1 : ℚ), (2 : ℚ)), (9, 4)] : List (ℚ × ℚ)).length ≤ SMOOTHING_WINDOW ∧
    stage1 [((1 : ℚ), (2 : ℚ)), (9, 4)] = specStage1 [((1 : ℚ), (2 : ℚ)), (9, 4)] :=
  ⟨by simp, by simp [SMOOTHING_WINDOW], C5_stage1_is_recency_weighted_average _ (by simp) (by simp [SMOOTHING_WINDOW])⟩

/-! ## Session state machine (`FingerSnakeGame.run`, `src/game/utils.py`)

`run` drives an if/elif chain over `self.game_state` each frame.  We
model the fields it reads and writes for the MENU / PLAYING / GAME_OVER
transitions: `game_state`, `menu_detect_start`, `gameover_detect_start`
and `transition_delay`.  Each frame's inputs are passed as a `Tick`:
the frame's `time.time()`, the `finger_detected` flag and
`shared_finger_pos` pulled from the camera thread, the pause flag, and
the outcome of the frame's collision checks
(`check_self_collision() or check_wall_collision()`), which abstracts
the snake geometry the PLAYING branch consults.  The snake/score/food
resets done on a transition do not feed back into this state machine
and are omitted. -/

/-- The three values of `self.game_state`. -/
inductive GamePhase
  | menu
  | playing
  | gameOver
deriving DecidableEq

/-- Session-transition state of `FingerSnakeGame`. -/
structure Session where
  game_state : GamePhase
  menu_detect_start : Option ℚ
  gameover_detect_start : Option ℚ
deriving DecidableEq

/-- `self.transition_delay = 0.5`. -/
def transition_delay : ℚ := 1 / 2

/-- The per-frame inputs read by the state-machine part of `run`. -/
structure Tick where
  now : ℚ
  finger_detected : Bool
  shared_finger_pos : Option Px
  paused : Bool
  collided : Bool
deriving DecidableEq

/-- The dwell condition of a frame:
`self.finger_detected and self.shared_finger_pos is not None`. -/
def Tick.Good (i : Tick) : Prop :=
  i.finger_detected = true ∧ i.shared_finger_pos.isSome = true

instance (i : Tick) : Decidable i.Good := by
  unfold Tick.Good
  infer_instance

/-- One frame of the `run` state machine. -/
def stepSession (s : Session) (i : Tick) : Session :=
  if s.game_state = .menu then
    if i.finger_detected && i.shared_finger_pos.isSome then
      match s.menu_detect_start with
      | none => { s with menu_detect_start := some i.now }
      | some t0 =>
        if transition_delay ≤ i.now - t0 then
          { s with game_state := .playing, menu_detect_start := none }
        else s
    else { s with menu_detect_start := none }
  else if s.game_state = .playing then
    if i.paused then s
    else if i.collided then
      { s with game_state := .gameOver, gameover_detect_start := none }
    else s
  else
    if i.finger_detected && i.shared_finger_pos.isSome then
      match s.gameover_detect_start with
      | none => { s with gameover_detect_start := some i.now }
      | some t0 =>
        if transition_delay ≤ i.now - t0 then
          { s with game_state := .playing, gameover_detect_start := none }
        else s
    else { s with gameover_detect_start := none }

/-- The state set up by `FingerSnakeGame.__init__`:
`game_state = "MENU"`, both dwell timers `None`. -/
def initSession : Session :=
  { game_state := .menu, menu_detect_start := none, gameover_detect_start := none }

/-- Run the session machine from startup over a list of frames. -/
def runSession (ins : List Tick) : Session :=
  ins.foldl stepSession initSession

/-- A dwell witness inside a frame history: the history ends with a
frame `j` (at time `t0`) followed only by frames on which the detection
condition held, and detection held at `j` itself. -/
def DwellWitness (ins : List Tick) (t0 : ℚ) : Prop :=
  ∃ pre j mid, ins = pre ++ j :: mid ∧ j.now = t0 ∧ Tick.Good j ∧ ∀ m ∈ mid, Tick.Good m

/-- A dwell witness extends through a further detected frame. -/
theorem DwellWitness.extend {ins : List Tick} {t0 : ℚ} (h : DwellWitness ins t0)
    {i : Tick} (hi : Tick.Good i) : DwellWitness (ins ++ [i]) t0 := by
  obtain ⟨pre, j, mid, rfl, hnow, hj, hmid⟩ := h
  refine ⟨pre, j, mid ++ [i], by simp, hnow, hj, ?_⟩
  intro m hm
  rcases List.mem_append.mp hm with h1 | h2
  · exact hmid m h1
  · rw [List.mem_singleton.mp h2]
    exact hi

/-- A detected frame is its own dwell witness. -/
theorem DwellWitness.self (ins : List Tick) {i : Tick} (hi : Tick.Good i) :
    DwellWitness (ins ++ [i]) i.now :=
  ⟨ins, i, [], rfl, rfl, hi, by simp⟩

/-- Reachability invariant of the session machine: a dwell timer is set
only while the corresponding phase is active, and a set timer always
records the start of an uninterrupted run of detected frames reaching
the present. -/
def SessionInv (ins : List Tick) : Prop :=
  ((runSession ins).game_state ≠ .menu → (runSession ins).menu_detect_start = none) ∧
  ((runSession ins).game_state ≠ .gameOver → (runSession ins).gameover_detect_start = none) ∧
  (∀ t0, (runSession ins).menu_detect_start = some t0 → DwellWitness ins t0) ∧
  (∀ t0, (runSession ins).gameover_detect_start = some t0 → DwellWitness ins t0)

/-- The session-machine invariant holds after every frame history. -/
theorem sessionInv (ins : List Tick) : SessionInv ins := by
  induction ins using List.reverseRecOn with
  | nil =>
    refine ⟨fun _ => rfl, fun _ => rfl, fun t0 h => ?_, fun t0 h => ?_⟩ <;>
      simp [runSession, initSession] at h
  | append_singleton ins i ih =>
    obtain ⟨ih1, ih2, ih3, ih4⟩ := ih
    have hrun : runSession (ins ++ [i]) = stepSession (runSession ins) i := by
      simp [runSession, List.foldl_append]
    set s := runSession ins with hs
    simp only [SessionInv]
    rw [hrun]
    have hGood : (i.finger_detected && i.shared_finger_pos.isSome) = true → i.Good := by
      intro h
      exact ⟨(Bool.and_eq_true _ _ ▸ h).1, (Bool.and_eq_true _ _ ▸ h).2⟩
    by_cases hm : s.game_state = .menu
    · by_cases hc : (i.finger_detected && i.shared_finger_pos.isSome) = true
      · cases hmd : s.menu_detect_start with
        | none =>
          have hstep : stepSession s i = { s with menu_detect_start := some i.now } := by
            simp [stepSession, hm, hc, hmd]
          rw [hstep]
          refine ⟨fun h => absurd hm h, fun _ => ih2 (by rw [hm]; simp), ?_, ?_⟩
          · intro t0 ht
            simp only [Option.some_inj] at ht
            rw [← ht]
            exact DwellWitness.self ins (hGood hc)
          · intro t0 ht
            exact (DwellWitness.extend (ih4 t0 ht) (hGood hc))
        | some t0 =>
          by_cases hd : transition_delay ≤ i.now - t0
          · have hstep : stepSession s i
                = { s with game_state := .playing, menu_detect_start := none } := by
              simp [stepSession, hm, hc, hmd, hd]
            rw [hstep]
            refine ⟨fun _ => rfl, fun _ => ih2 (by rw [hm]; simp), ?_, ?_⟩
            · intro u hu
              simp at hu
            · intro u hu
              exact (DwellWitness.extend (ih4 u hu) (hGood hc))
          · have hstep : stepSession s i = s := by
              simp [stepSession, hm, hc, hmd, hd]
            rw [hstep]
            refine ⟨fun h => absurd hm h, fun _ => ih2 (by rw [hm]; simp), ?_, ?_⟩
            · intro u hu
              rw [hmd] at hu
              simp only [Option.some_inj] at hu
              rw [← hu]
              exact DwellWitness.extend (ih3 t0 hmd) (hGood hc)
            · intro u hu
              exact DwellWitness.extend (ih4 u hu) (hGood hc)
      · have hstep : stepSession s i = { s with menu_detect_start := none } := by
          simp [stepSession, hm, hc]
        rw [hstep]
        refine ⟨fun _ => rfl, fun _ => ih2 (by rw [hm]; simp), ?_, ?_⟩
        · intro u hu
          simp at hu
        · intro u hu
          have : s.gameover_detect_start = none := ih2 (by rw [hm]; simp)
          rw [this] at hu
          simp at hu
    · by_cases hp : s.game_state = .playing
      · have hmd : s.menu_detect_start = none := ih1 (by rw [hp]; simp)
        have hgd : s.gameover_detect_start = none := ih2 (by rw [hp]; simp)
        by_cases hpa : i.paused = true
        · have hstep : stepSession s i = s := by
            simp [stepSession, hm, hp, hpa]
          rw [hstep]
          refine ⟨fun _ => hmd, fun _ => hgd, ?_, ?_⟩ <;>
            · intro u hu
              first
                | (rw [hmd] at hu; simp at hu)
                | (rw [hgd] at hu; simp at hu)
        · by_cases hco : i.collided = true
          · have hstep : stepSession s i
                = { s with game_state := .gameOver, gameover_detect_start := none } := by
              simp [stepSession, hm, hp, hpa, hco]
            rw [hstep]
            refine ⟨fun _ => hmd, fun h => rfl, ?_, ?_⟩
            · intro u hu
              rw [hmd] at hu
              simp at hu
            · intro u hu
              simp at hu
          · have hstep : stepSession s i = s := by
              simp [stepSession, hm, hp, hpa, hco]
            rw [hstep]
            refine ⟨fun _ => hmd, fun _ => hgd, ?_, ?_⟩ <;>
              · intro u hu
                first
                  | (rw [hmd] at hu; simp at hu)
                  | (rw [hgd] at hu; simp at hu)
      · -- game over phase
        have hmd : s.menu_detect_start = none := ih1 hm
        by_cases hc : (i.finger_detected && i.shared_finger_pos.isSome) = true
        · cases hgd : s.gameover_detect_start with
          | none =>
            have hstep : stepSession s i
                = { s with gameover_detect_start := some i.now } := by
              simp [stepSession, hm, hp, hc, hgd]
            rw [hstep]
            refine ⟨fun _ => hmd, fun h => absurd ?_ h, ?_, ?_⟩
            · cases hcase : s.game_state <;> simp_all
            · intro u hu
              rw [hmd] at hu
              simp at hu
            · intro u hu
              simp only [Option.some_inj] at hu
              rw [← hu]
              exact DwellWitness.self ins (hGood hc)
          | some t0 =>
            by_cases hd : transition_delay ≤ i.now - t0
            · have hstep : stepSession s i
                  = { s with game_state := .playing, gameover_detect_start := none } := by
                simp [stepSession, hm, hp, hc, hgd, hd]
              rw [hstep]
              refine ⟨fun _ => hmd, fun _ => rfl, ?_, ?_⟩
              · intro u hu
                rw [hmd] at hu
                simp at hu
              · intro u hu
                simp at hu
            · have hstep : stepSession s i = s := by
                simp [stepSession, hm, hp, hc, hgd, hd]
              rw [hstep]
              refine ⟨fun _ => hmd, fun h => absurd ?_ h, ?_, ?_⟩
              · cases hcase : s.game_state <;> simp_all
              · intro u hu
                rw [hmd] at hu
                simp at hu
              · intro u hu
                rw [hgd] at hu
                simp only [Option.some_inj] at hu
                rw [← hu]
                exact DwellWitness.extend (ih4 t0 hgd) (hGood hc)
        · have hstep : stepSession s i = { s with gameover_detect_start := none } := by
            simp [stepSession, hm, hp, hc]
          rw [hstep]
          refine ⟨fun _ => hmd, fun _ => rfl, ?_, ?_⟩
          · intro u hu
            rw [hmd] at hu
            simp at hu
          · intro u hu
            simp at hu

/-! ## Claim C6 -/

/-- C6: the session machine never steps from MENU or GAME_OVER to
PLAYING unless the transition frame itself satisfies the detection
condition (detected with a non-`None` shared finger position) and there
is an earlier frame `j`, with every frame from `j` to the present
detected (an uninterrupted dwell), such that the elapsed time
`i.now - j.now` is at least `transition_delay = 0.5` s.  Any frame
without detection resets the dwell timer (`DwellWitness` runs reach the
present), so the detected signal must have remained continuously true
for the dwell time. -/
theorem C6_dwell_before_playing (ins : List Tick) (i : Tick)
    (hpre : (runSession ins).game_state ≠ GamePhase.playing)
    (hstep : (stepSession (runSession ins) i).game_state = GamePhase.playing) :
    Tick.Good i ∧
      ∃ t0, transition_delay ≤ i.now - t0 ∧ DwellWitness ins t0 := by
  obtain ⟨ih1, ih2, ih3, ih4⟩ := sessionInv ins
  set s := runSession ins with hs
  by_cases hm : s.game_state = .menu
  · by_cases hc : (i.finger_detected && i.shared_finger_pos.isSome) = true
    · cases hmd : s.menu_detect_start with
      | none =>
        exfalso
        have hgs : (stepSession s i).game_state = s.game_state := by
          simp [stepSession, hm, hc, hmd]
        rw [hgs, hm] at hstep
        exact absurd hstep (by decide)
      | some t0 =>
        by_cases hd : transition_delay ≤ i.now - t0
        · exact ⟨⟨(Bool.and_eq_true _ _ ▸ hc).1, (Bool.and_eq_true _ _ ▸ hc).2⟩,
            t0, hd, ih3 t0 hmd⟩
        · exfalso
          have hgs : stepSession s i = s := by
            simp [stepSession, hm, hc, hmd, hd]
          rw [hgs, hm] at hstep
          exact absurd hstep (by decide)
    · exfalso
      have hgs : (stepSession s i).game_state = s.game_state := by
        simp [stepSession, hm, hc]
      rw [hgs, hm] at hstep
      exact absurd hstep (by decide)
  · by_cases hp : s.game_state = .playing
    · exact absurd hp hpre
    · by_cases hc : (i.finger_detected && i.shared_finger_pos.isSome) = true
      · cases hgd : s.gameover_detect_start with
        | none =>
          exfalso
          have hgs : (stepSession s i).game_state = s.game_state := by
            simp [stepSession, hm, hp, hc, hgd]
          rw [hgs] at hstep
          exact absurd hstep hp
        | some t0 =>
          by_cases hd : transition_delay ≤ i.now - t0
          · exact ⟨⟨(Bool.and_eq_true _ _ ▸ hc).1, (Bool.and_eq_true _ _ ▸ hc).2⟩,
              t0, hd, ih4 t0 hgd⟩
          · exfalso
            have hgs : stepSession s i = s := by
              simp [stepSession, hm, hp, hc, hgd, hd]
            rw [hgs] at hstep
            exact absurd hstep hp
      · exfalso
        have hgs : (stepSession s i).game_state = s.game_state := by
          simp [stepSession, hm, hp, hc]
        rw [hgs] at hstep
        exact absurd hstep hp

/-- Witness for C6 at a concrete run: one detected menu frame at time 0
arms the dwell timer, and a detected frame at time 0.5 triggers the
transition to PLAYING with a full 0.5 s dwell. -/
theorem C6_dwell_before_playing_witness :
    (runSession [⟨0, true, some (10, 10), false, false⟩]).game_state ≠ GamePhase.playing ∧
    (stepSession (runSession [⟨0, true, some (10, 10), false, false⟩])
        ⟨1 / 2, true, some (10, 10), false, false⟩).game_state = GamePhase.playing ∧
    (Tick.Good ⟨1 / 2, true, some (10, 10), false, false⟩ ∧
      ∃ t0, transition_delay ≤ (1 : ℚ) / 2 - t0 ∧
        DwellWitness [⟨0, true, some (10, 10), false, false⟩] t0) :=
  ⟨by norm_num [runSession, stepSession, initSession]; decide,
    by norm_num [runSession, stepSession, initSession, transition_delay],
    C6_dwell_before_playing [⟨0, true, some (10, 10), false, false⟩]
      ⟨1 / 2, true, some (10, 10), false, false⟩
      (by norm_num [runSession, stepSession, initSession]; decide)
      (by norm_num [runSession, stepSession, initSession, transition_delay])⟩

/-! ## Snake (`src/game/snake.py`)

The snake geometry uses `math.hypot` results in further arithmetic
(division by the distance), so here floats are idealised as `ℝ` and
`math.hypot` as `Real.sqrt (x ^ 2 + y ^ 2)`; these definitions are
necessarily noncomputable. -/

noncomputable section

/-- `math.hypot x y`. -/
def hyp (x y : ℝ) : ℝ := Real.sqrt (x ^ 2 + y ^ 2)

/-- State of a `Snake` object (the drawing-only colour data is not
state). -/
structure Snake where
  segments : List (ℝ × ℝ)
  growth_pending : ℤ
  velocity : ℝ × ℝ
  speed_boost_end_time : ℝ

/-- `Snake.reset`: `INITIAL_LENGTH` segments spread out horizontally
with `SEGMENT_SPACING`, no pending growth, zero velocity, no boost. -/
def resetSnake : Snake :=
  let center_x : ℕ := GAME_WIDTH / 2
  let center_y : ℕ := GAME_HEIGHT / 2
  { segments := (List.range INITIAL_LENGTH).map fun i =>
      ((center_x : ℝ) - (i : ℝ) * SEGMENT_SPACING, (center_y : ℝ)),
    growth_pending := 0,
    velocity := (0, 0),
    speed_boost_end_time := 0 }

/-- `Snake.get_max_speed`: boosted while `time.time()` is before the
boost expiry. -/
def get_max_speed (s : Snake) (now : ℝ) : ℝ :=
  if now < s.speed_boost_end_time then MAX_SPEED * 1.5 else MAX_SPEED

/-- `Snake.grow`: add growth to the snake (`self.growth_pending +=
amount`; the game calls it with `food.score * GROWTH_RATE`). -/
def grow (s : Snake) (amount : ℤ) : Snake :=
  { s with growth_pending := s.growth_pending + amount }

/-- The velocity computation of `Snake.update`: direction toward the
target, ease-in/ease-out speed scaling (`min(distance / 100, 1)`), and
the inertia blend with coefficient `0.8`. -/
def newVelocity (s : Snake) (now : ℝ) (tp head : ℝ × ℝ) : ℝ × ℝ :=
  let dx := tp.1 - head.1
  let dy := tp.2 - head.2
  let distance := hyp dx dy
  let dir_x := dx / distance
  let dir_y := dy / distance
  let speed_factor := min (distance / 100) 1
  let speed := get_max_speed s now * speed_factor
  let inertia : ℝ := 0.8
  (s.velocity.1 * inertia + dir_x * speed * (1 - inertia),
   s.velocity.2 * inertia + dir_y * speed * (1 - inertia))

/-- The re-spacing pass of `Snake.update` (`for i in range(1,
len(self.segments))`): `kept` is the last kept segment
(`segments_to_keep[-1]`); a segment is kept only if its distance from
`kept` is at least `SEGMENT_SPACING`, and a kept segment is reprojected
to lie at exactly `SEGMENT_SPACING` from `kept` along the original
direction (`ratio = SEGMENT_SPACING / dist`). -/
def respace (kept : ℝ × ℝ) : List (ℝ × ℝ) → List (ℝ × ℝ)
  | [] => []
  | curr :: rest =>
    let dx := curr.1 - kept.1
    let dy := curr.2 - kept.2
    let dist := hyp dx dy
    if SEGMENT_SPACING ≤ dist then
      if 0 < dist then
        let ratio := SEGMENT_SPACING / dist
        let nk := (kept.1 + dx * ratio, kept.2 + dy * ratio)
        nk :: respace nk rest
      else respace kept rest
    else respace kept rest

/-- The tail projection of the growth loop of `Snake.update`: project a
new segment outward from the tail along the last segment direction, or
(failsafe for coincident segments) straight below the tail. -/
def newTail (prev tail : ℝ × ℝ) : ℝ × ℝ :=
  let dx := tail.1 - prev.1
  let dy := tail.2 - prev.2
  let dist := hyp dx dy
  if 0 < dist then
    (tail.1 + dx / dist * SEGMENT_SPACING, tail.2 + dy / dist * SEGMENT_SPACING)
  else (tail.1, tail.2 + SEGMENT_SPACING)

/-- One iteration of the growth loop of `Snake.update` (`while
len(self.segments) < target_length`): with at least two segments,
append `newTail`; with a single segment, append one segment straight
below ("for very short snake").  (On the empty list the Python
`self.segments[-1]` would raise; that case is unreachable because the
loop only ever runs on the non-empty re-spaced chain.) -/
def appendOne : List (ℝ × ℝ) → List (ℝ × ℝ)
  | [] => []
  | [tail] => [tail, (tail.1, tail.2 + SEGMENT_SPACING)]
  | [prev, tail] => [prev, tail, newTail prev tail]
  | x :: y :: z :: rest => x :: appendOne (y :: z :: rest)

/-- Iterate the growth step: the growth `while` loop runs
`target_length - len(segments)` times, appending one segment per
iteration. -/
def growLoop : ℕ → List (ℝ × ℝ) → List (ℝ × ℝ)
  | 0, l => l
  | n + 1, l => growLoop n (appendOne l)

/-- Length reconciliation of `Snake.update`: the growth loop followed
by the trimming loop (`while len(self.segments) > target_length:
self.segments.pop()`). -/
def reconcile (target : ℕ) (l : List (ℝ × ℝ)) : List (ℝ × ℝ) :=
  (growLoop (target - l.length) l).take target

/-- `Snake.update`.  `now` is the `time.time()` read by
`get_max_speed`; `target = none` models a falsy `target_pos`.  For a
negative `target_length` (unreachable: the game only grows by positive
amounts) the Python trim loop would raise on an emptied deque;
`Int.toNat` clamps to zero instead.  The `[]` segment case is likewise
unreachable (the chain is never empty) — Python would raise on
`self.segments[0]`. -/
def update (s : Snake) (now : ℝ) (target : Option (ℝ × ℝ)) : Snake :=
  match target with
  | none => s
  | some tp =>
    match s.segments with
    | [] => s
    | head :: rest =>
      let distance := hyp (tp.1 - head.1) (tp.2 - head.2)
      if distance < MIN_DISTANCE_TO_MOVE then s
      else if 0 < distance then
        let vel := newVelocity s now tp head
        let new_head := (head.1 + vel.1, head.2 + vel.2)
        let kept := new_head :: respace new_head (head :: rest)
        { segments := reconcile (INITIAL_LENGTH + s.growth_pending).toNat kept,
          growth_pending := s.growth_pending,
          velocity := vel,
          speed_boost_end_time := s.speed_boost_end_time }
      else s

/-- `Snake.check_self_collision`, as the proposition its returned Bool
decides: false outright for chains of at most `SELF_COLLISION_IGNORE`
segments, else true iff the head is within `COLLISION_THRESHOLD` of
some segment from index `SELF_COLLISION_IGNORE` on. -/
def check_self_collision (s : Snake) : Prop :=
  SELF_COLLISION_IGNORE < s.segments.length ∧
    ∃ seg ∈ s.segments.drop SELF_COLLISION_IGNORE,
      hyp (s.segments.headI.1 - seg.1) (s.segments.headI.2 - seg.2) < COLLISION_THRESHOLD

/-- Fold `Snake.update` over a list of per-tick inputs (each tick's
`time.time()` and target), starting from the freshly reset snake. -/
def runSnake (steps : List (ℝ × Option (ℝ × ℝ))) : Snake :=
  steps.foldl (fun s p => update s p.1 p.2) resetSnake

end

/-! ### Facts about `hyp` -/

/-- `hyp` is nonnegative. -/
theorem hyp_nonneg (x y : ℝ) : 0 ≤ hyp x y := Real.sqrt_nonneg _

/-- `hyp` on the x-axis is the absolute difference. -/
theorem hyp_x0 (x : ℝ) : hyp x 0 = |x| := by
  unfold hyp
  rw [show x ^ 2 + 0 ^ 2 = x ^ 2 by ring, Real.sqrt_sq_eq_abs]

/-- `hyp` on the y-axis is the absolute difference. -/
theorem hyp_0y (y : ℝ) : hyp 0 y = |y| := by
  unfold hyp
  rw [show (0 : ℝ) ^ 2 + y ^ 2 = y ^ 2 by ring, Real.sqrt_sq_eq_abs]

/-- Scaling both coordinates scales `hyp`. -/
theorem hyp_scale (x y c : ℝ) : hyp (x * c) (y * c) = hyp x y * |c| := by
  unfold hyp
  rw [mul_pow, mul_pow, ← add_mul, Real.sqrt_mul (by positivity), Real.sqrt_sq_eq_abs]

/-- The reprojection computation shared by the re-spacing pass and the
tail projection: a vector of length `hyp dx dy > 0`, rescaled by
`c / hyp dx dy` for `c ≥ 0`, has length exactly `c`. -/
theorem hyp_rescale (dx dy c : ℝ) (hd : 0 < hyp dx dy) (hc : 0 ≤ c) :
    hyp (dx * (c / hyp dx dy)) (dy * (c / hyp dx dy)) = c := by
  rw [hyp_scale, abs_of_nonneg (div_nonneg hc (le_of_lt hd)),
    mul_div_assoc' (hyp dx dy) c (hyp dx dy), mul_comm (hyp dx dy) c,
    mul_div_assoc c (hyp dx dy) (hyp dx dy), div_self (ne_of_gt hd), mul_one]

/-! ### Length lemmas for the growth and trim loops -/

/-- The growth step appends exactly one segment to a non-empty chain. -/
theorem appendOne_length : ∀ l : List (ℝ × ℝ), l ≠ [] →
    (appendOne l).length = l.length + 1
  | [], h => absurd rfl h
  | [_], _ => by simp [appendOne]
  | [_, _], _ => by simp [appendOne]
  | _ :: y :: z :: rest, _ => by
    have ih := appendOne_length (y :: z :: rest) (by simp)
    simp only [appendOne, List.length_cons, ih]

/-- The growth step keeps the chain non-empty. -/
theorem appendOne_ne_nil (l : List (ℝ × ℝ)) (h : l ≠ []) : appendOne l ≠ [] := by
  have := appendOne_length l h
  intro hnil
  rw [hnil] at this
  simp at this

/-- The growth loop appends exactly `n` segments to a non-empty
chain. -/
theorem growLoop_length : ∀ (n : ℕ) (l : List (ℝ × ℝ)), l ≠ [] →
    (growLoop n l).length = l.length + n
  | 0, l, _ => by simp [growLoop]
  | n + 1, l, h => by
    have ih := growLoop_length n (appendOne l) (appendOne_ne_nil l h)
    simp only [growLoop, ih, appendOne_length l h]
    omega

/-- Reconciliation always lands on exactly the target length when the
chain is non-empty. -/
theorem reconcile_length (target : ℕ) (l : List (ℝ × ℝ)) (h : l ≠ []) :
    (reconcile target l).length = target := by
  unfold reconcile
  rw [List.length_take, growLoop_length (target - l.length) l h]
  omega

/-- Characterisation of `Snake.update` on a tick that moves: a
non-`None` target at distance at least `MIN_DISTANCE_TO_MOVE` from the
head yields the re-spaced, length-reconciled chain and the blended
velocity. -/
theorem update_far (s : Snake) (now : ℝ) (tp head : ℝ × ℝ)
    (rest : List (ℝ × ℝ)) (hseg : s.segments = head :: rest)
    (hfar : MIN_DISTANCE_TO_MOVE ≤ hyp (tp.1 - head.1) (tp.2 - head.2)) :
    update s now (some tp) =
      { segments := reconcile (INITIAL_LENGTH + s.growth_pending).toNat
          ((head.1 + (newVelocity s now tp head).1,
            head.2 + (newVelocity s now tp head).2) ::
            respace (head.1 + (newVelocity s now tp head).1,
              head.2 + (newVelocity s now tp head).2) (head :: rest)),
        growth_pending := s.growth_pending,
        velocity := newVelocity s now tp head,
        speed_boost_end_time := s.speed_boost_end_time } := by
  have hnotlt : ¬(hyp (tp.1 - head.1) (tp.2 - head.2) < MIN_DISTANCE_TO_MOVE) :=
    not_lt.mpr hfar
  have hpos : (0 : ℝ) < hyp (tp.1 - head.1) (tp.2 - head.2) :=
    lt_of_lt_of_le (by norm_num [MIN_DISTANCE_TO_MOVE]) hfar
  unfold update
  rw [hseg]
  simp [hnotlt, hpos]

/-- On a tick that moves, the chain length is reconciled to exactly
`INITIAL_LENGTH + growth_pending` (clamped at zero). -/
theorem update_length (s : Snake) (now : ℝ) (tp head : ℝ × ℝ)
    (rest : List (ℝ × ℝ)) (hseg : s.segments = head :: rest)
    (hfar : MIN_DISTANCE_TO_MOVE ≤ hyp (tp.1 - head.1) (tp.2 - head.2)) :
    (update s now (some tp)).segments.length
      = (INITIAL_LENGTH + s.growth_pending).toNat := by
  rw [update_far s now tp head rest hseg hfar]
  exact reconcile_length _ _ (by simp)

/-! ### The exact-spacing invariant -/

/-- Every pair of adjacent chain segments is at distance exactly
`SEGMENT_SPACING`. -/
def Spaced : List (ℝ × ℝ) → Prop
  | [] => True
  | [_] => True
  | p :: q :: rest =>
    hyp (q.1 - p.1) (q.2 - p.2) = SEGMENT_SPACING ∧ Spaced (q :: rest)

/-- `SEGMENT_SPACING` is positive. -/
theorem segment_spacing_pos : (0 : ℝ) < SEGMENT_SPACING := by
  norm_num [SEGMENT_SPACING]

/-- The re-spacing pass rebuilds an exactly spaced chain from the last
kept segment on, whatever the input spacing was. -/
theorem respace_spaced : ∀ (l : List (ℝ × ℝ)) (kept : ℝ × ℝ),
    Spaced (kept :: respace kept l)
  | [], _ => trivial
  | curr :: rest, kept => by
    by_cases h1 : SEGMENT_SPACING ≤ hyp (curr.1 - kept.1) (curr.2 - kept.2)
    · have h2 : 0 < hyp (curr.1 - kept.1) (curr.2 - kept.2) :=
        lt_of_lt_of_le segment_spacing_pos h1
      have hr : respace kept (curr :: rest)
          = (kept.1 + (curr.1 - kept.1) * (SEGMENT_SPACING / hyp (curr.1 - kept.1) (curr.2 - kept.2)),
             kept.2 + (curr.2 - kept.2) * (SEGMENT_SPACING / hyp (curr.1 - kept.1) (curr.2 - kept.2)))
            :: respace (kept.1 + (curr.1 - kept.1) * (SEGMENT_SPACING / hyp (curr.1 - kept.1) (curr.2 - kept.2)),
             kept.2 + (curr.2 - kept.2) * (SEGMENT_SPACING / hyp (curr.1 - kept.1) (curr.2 - kept.2))) rest := by
        simp [respace, h1, h2]
      rw [hr]
      refine ⟨?_, respace_spaced rest _⟩
      rw [add_sub_cancel_left, add_sub_cancel_left]
      exact hyp_rescale _ _ _ h2 (le_of_lt segment_spacing_pos)
    · have hr : respace kept (curr :: rest) = respace kept rest := by
        simp [respace, h1]
      rw [hr]
      exact respace_spaced rest kept

/-- The projected tail segment lies at distance exactly
`SEGMENT_SPACING` from the old tail (both the generic and the failsafe
branch). -/
theorem newTail_dist (prev tail : ℝ × ℝ) :
    hyp ((newTail prev tail).1 - tail.1) ((newTail prev tail).2 - tail.2)
      = SEGMENT_SPACING := by
  unfold newTail
  by_cases h : 0 < hyp (tail.1 - prev.1) (tail.2 - prev.2)
  · simp only [h, if_true]
    rw [add_sub_cancel_left, add_sub_cancel_left]
    have e1 : (tail.1 - prev.1) / hyp (tail.1 - prev.1) (tail.2 - prev.2) * SEGMENT_SPACING
        = (tail.1 - prev.1) * (SEGMENT_SPACING / hyp (tail.1 - prev.1) (tail.2 - prev.2)) := by
      ring
    have e2 : (tail.2 - prev.2) / hyp (tail.1 - prev.1) (tail.2 - prev.2) * SEGMENT_SPACING
        = (tail.2 - prev.2) * (SEGMENT_SPACING / hyp (tail.1 - prev.1) (tail.2 - prev.2)) := by
      ring
    rw [e1, e2]
    exact hyp_rescale _ _ _ h (le_of_lt segment_spacing_pos)
  · simp only [h, if_false]
    rw [sub_self, add_sub_cancel_left, hyp_0y,
      abs_of_pos segment_spacing_pos]

/-- The head of the chain survives a growth step. -/
theorem appendOne_cons_cons (y z : ℝ × ℝ) (rest : List (ℝ × ℝ)) :
    ∃ m, appendOne (y :: z :: rest) = y :: m := by
  cases rest with
  | nil => exact ⟨[z, newTail y z], rfl⟩
  | cons a as => exact ⟨appendOne (z :: a :: as), rfl⟩

/-- The growth step preserves exact spacing. -/
theorem appendOne_spaced : ∀ l : List (ℝ × ℝ), Spaced l → Spaced (appendOne l)
  | [], _ => trivial
  | [t], _ => by
    refine ⟨?_, trivial⟩
    show hyp (t.1 - t.1) (t.2 + SEGMENT_SPACING - t.2) = SEGMENT_SPACING
    rw [sub_self, add_sub_cancel_left, hyp_0y, abs_of_pos segment_spacing_pos]
  | [p, t], h => ⟨h.1, newTail_dist p t, trivial⟩
  | x :: y :: z :: rest, h => by
    have ih := appendOne_spaced (y :: z :: rest) h.2
    obtain ⟨m, hm⟩ := appendOne_cons_cons y z rest
    show Spaced (x :: appendOne (y :: z :: rest))
    rw [hm]
    rw [hm] at ih
    exact ⟨h.1, ih⟩

/-- Trimming from the tail preserves exact spacing. -/
theorem take_spaced : ∀ (n : ℕ) (l : List (ℝ × ℝ)), Spaced l → Spaced (l.take n)
  | 0, _, _ => trivial
  | _ + 1, [], _ => trivial
  | _ + 1, [_], _ => by
    rw [List.take_succ_cons, List.take_nil]
    trivial
  | 1, _ :: _ :: _, _ => trivial
  | n + 2, p :: q :: rest, h => by
    have ih := take_spaced (n + 1) (q :: rest) h.2
    exact ⟨h.1, ih⟩

/-- The growth loop preserves exact spacing. -/
theorem growLoop_spaced : ∀ (n : ℕ) (l : List (ℝ × ℝ)),
    Spaced l → Spaced (growLoop n l)
  | 0, _, h => h
  | n + 1, l, h => growLoop_spaced n (appendOne l) (appendOne_spaced l h)

/-- Length reconciliation preserves exact spacing. -/
theorem reconcile_spaced (target : ℕ) (l : List (ℝ × ℝ)) (h : Spaced l) :
    Spaced (reconcile target l) :=
  take_spaced target _ (growLoop_spaced _ l h)

/-- `Snake.update` preserves (and, on a moving tick, re-establishes)
exact spacing. -/
theorem update_spaced (s : Snake) (now : ℝ) (target : Option (ℝ × ℝ))
    (h : Spaced s.segments) : Spaced (update s now target).segments := by
  match target with
  | none => exact h
  | some tp =>
    cases hseg : s.segments with
    | nil =>
      unfold update
      rw [hseg]
      exact h
    | cons head rest =>
      unfold update
      rw [hseg]
      by_cases h1 : hyp (tp.1 - head.1) (tp.2 - head.2) < MIN_DISTANCE_TO_MOVE
      · simp only [h1, if_true]
        exact h
      · by_cases h2 : 0 < hyp (tp.1 - head.1) (tp.2 - head.2)
        · simp only [h1, h2, if_true, if_false]
          exact reconcile_spaced _ _ (respace_spaced (head :: rest) _)
        · simp only [h1, h2, if_false]
          exact h

/-- The reset chain, concretely. -/
theorem resetSnake_segments_eq :
    resetSnake.segments
      = [(400, 300), (395, 300), (390, 300), (385, 300), (380, 300), (375, 300), (370, 300)] := by
  have hr : List.range INITIAL_LENGTH = [0, 1, 2, 3, 4, 5, 6] := by decide
  simp only [resetSnake, hr, List.map]
  norm_num [GAME_WIDTH, GAME_HEIGHT, SEGMENT_SPACING]

/-- The freshly reset chain is exactly spaced. -/
theorem resetSnake_spaced : Spaced resetSnake.segments := by
  rw [resetSnake_segments_eq]
  norm_num [Spaced, hyp_x0, SEGMENT_SPACING]

/-! ## Claim C3 -/

/-- C3: after any number of `Snake.update` ticks from the reset chain —
whatever the targets, including `None`, dead-zone and degenerate ones —
every pair of adjacent segments is at distance exactly
`SEGMENT_SPACING`: the re-spacing pass only keeps segments at distance
at least `SEGMENT_SPACING` from the last kept one and reprojects them
to exactly `SEGMENT_SPACING`, and tail appends are placed at exactly
`SEGMENT_SPACING` (in this real-number idealisation the invariant holds
exactly, with no transient exception needed between complete
updates). -/
theorem C3_exact_spacing_invariant (steps : List (ℝ × Option (ℝ × ℝ))) :
    Spaced (runSnake steps).segments := by
  induction steps using List.reverseRecOn with
  | nil => exact resetSnake_spaced
  | append_singleton steps p ih =>
    have hrun : runSnake (steps ++ [p])
        = update (runSnake steps) p.1 p.2 := by
      simp [runSnake, List.foldl_append]
    rw [hrun]
    exact update_spaced _ _ _ ih

/-! ## Claim C7 -/

/-- C7: `check_self_collision` returns false for every chain of at most
`SELF_COLLISION_IGNORE = 5` segments — the guard
`len(self.segments) <= SELF_COLLISION_IGNORE` short-circuits before any
distance is examined. -/
theorem C7_short_chain_never_self_collides (s : Snake)
    (h : s.segments.length ≤ SELF_COLLISION_IGNORE) :
    ¬check_self_collision s :=
  fun hc => absurd hc.1 (not_lt.mpr h)

/-- Witness for C7 at a concrete chain of three segments. -/
theorem C7_short_chain_never_self_collides_witness :
    (Snake.mk [(0, 0), (5, 0), (10, 0)] 0 (0, 0) 0).segments.length
        ≤ SELF_COLLISION_IGNORE ∧
      ¬check_self_collision (Snake.mk [(0, 0), (5, 0), (10, 0)] 0 (0, 0) 0) :=
  ⟨by norm_num [SELF_COLLISION_IGNORE],
    C7_short_chain_never_self_collides _ (by norm_num [SELF_COLLISION_IGNORE])⟩

/-! ## Claims C1 and C9

`Snake.update` reconciles the WHOLE outstanding length delta inside one
call: the growth `while` loop runs until `len(segments) ==
target_length` and the trim loop pops down to `target_length`, all
before `update` returns.  So after a tick that moves, the chain length
is exactly `INITIAL_LENGTH + growth_pending` (claim C9), and a single
tick can change the length by more than 1 — e.g. by 2 right after one
regular food is eaten (refuting claim C1 as stated). -/

/-- The freshly reset snake right after one regular-food consumption
event (`self.snake.grow(food.score * GROWTH_RATE)` with `score = 1`):
two units of pending growth. -/
noncomputable def grownSnake : Snake := grow resetSnake (1 * GROWTH_RATE)

/-- The grown snake's chain is still the reset chain. -/
theorem grownSnake_segments_eq :
    grownSnake.segments
      = (400, 300) :: [(395, 300), (390, 300), (385, 300), (380, 300), (375, 300), (370, 300)] := by
  have h : grownSnake.segments = resetSnake.segments := rfl
  rw [h, resetSnake_segments_eq]

/-- The grown snake has two units of pending growth. -/
theorem grownSnake_growth_pending : grownSnake.growth_pending = 2 := by
  simp [grownSnake, grow, resetSnake, GROWTH_RATE]

/-- The far-target hypothesis at the concrete counterexample input:
target `(700, 300)`, head `(400, 300)`, distance 300. -/
theorem grownSnake_target_far :
    MIN_DISTANCE_TO_MOVE ≤ hyp ((700 : ℝ) - (400 : ℝ)) ((300 : ℝ) - (300 : ℝ)) := by
  norm_num [hyp_x0, MIN_DISTANCE_TO_MOVE]

/-- C1 counterexample: with two units of pending growth (one regular
food just eaten) and a reachable target, a SINGLE `Snake.update` call
changes the number of segments from 7 to 9 — a change of 2, not at most
1: the whole pending delta is applied in one tick. -/
theorem C1_counterexample_two_segments_in_one_tick :
    grownSnake.segments.length = 7 ∧
    (update grownSnake 0 (some (700, 300))).segments.length = 9 ∧
    ¬(((update grownSnake 0 (some (700, 300))).segments.length : ℤ)
        - (grownSnake.segments.length : ℤ) ≤ 1) := by
  have h1 : grownSnake.segments.length = 7 := by
    rw [grownSnake_segments_eq]
    rfl
  have h2 : (update grownSnake 0 (some (700, 300))).segments.length = 9 := by
    rw [update_length grownSnake 0 (700, 300) (400, 300) _ grownSnake_segments_eq
      grownSnake_target_far, grownSnake_growth_pending]
    norm_num [INITIAL_LENGTH]
    decide
  refine ⟨h1, h2, ?_⟩
  rw [h1, h2]
  norm_num

/-- C1 amended: a single `Snake.update` call with a non-`None` target
at distance at least `MIN_DISTANCE_TO_MOVE` from the head reconciles
the ENTIRE outstanding length delta at once — the resulting segment
count is exactly `INITIAL_LENGTH + growth_pending` (clamped at zero) —
so the per-tick length change is not bounded by 1; growth appears in
one tick, not gradually. -/
theorem C1_amended_whole_delta_in_one_tick (s : Snake) (now : ℝ)
    (tp head : ℝ × ℝ) (rest : List (ℝ × ℝ))
    (hseg : s.segments = head :: rest)
    (hfar : MIN_DISTANCE_TO_MOVE ≤ hyp (tp.1 - head.1) (tp.2 - head.2)) :
    (update s now (some tp)).segments.length
      = (INITIAL_LENGTH + s.growth_pending).toNat :=
  update_length s now tp head rest hseg hfar

/-- Witness for the amended C1 at the counterexample input. -/
theorem C1_amended_whole_delta_in_one_tick_witness :
    grownSnake.segments
        = (400, 300) :: [(395, 300), (390, 300), (385, 300), (380, 300), (375, 300), (370, 300)] ∧
    MIN_DISTANCE_TO_MOVE ≤ hyp ((700 : ℝ) - (400 : ℝ)) ((300 : ℝ) - (300 : ℝ)) ∧
    (update grownSnake 0 (some (700, 300))).segments.length
      = ((INITIAL_LENGTH : ℤ) + grownSnake.growth_pending).toNat :=
  ⟨grownSnake_segments_eq, grownSnake_target_far,
    C1_amended_whole_delta_in_one_tick grownSnake 0 (700, 300) (400, 300) _
      grownSnake_segments_eq grownSnake_target_far⟩

/-- C9: after every `Snake.update` call with a non-`None` target at
distance at least `MIN_DISTANCE_TO_MOVE` from the head (and the
nonnegative pending growth every reachable state has), the number of
segments equals exactly `INITIAL_LENGTH + growth_pending`: the entire
outstanding length delta — both the segments dropped by re-spacing and
all pending growth — is reconciled within that single call. -/
theorem C9_one_tick_reaches_target_length (s : Snake) (now : ℝ)
    (tp head : ℝ × ℝ) (rest : List (ℝ × ℝ))
    (hseg : s.segments = head :: rest)
    (hgp : 0 ≤ s.growth_pending)
    (hfar : MIN_DISTANCE_TO_MOVE ≤ hyp (tp.1 - head.1) (tp.2 - head.2)) :
    ((update s now (some tp)).segments.length : ℤ)
      = INITIAL_LENGTH + s.growth_pending := by
  rw [update_length s now tp head rest hseg hfar,
    Int.toNat_of_nonneg (add_nonneg (Int.natCast_nonneg _) hgp)]

/-- Witness for C9 at the same concrete input: the single tick lands on
length `INITIAL_LENGTH + 2 = 9` exactly. -/
theorem C9_one_tick_reaches_target_length_witness :
    grownSnake.segments
        = (400, 300) :: [(395, 300), (390, 300), (385, 300), (380, 300), (375, 300), (370, 300)] ∧
    (0 : ℤ) ≤ grownSnake.growth_pending ∧
    MIN_DISTANCE_TO_MOVE ≤ hyp ((700 : ℝ) - (400 : ℝ)) ((300 : ℝ) - (300 : ℝ)) ∧
    ((update grownSnake 0 (some (700, 300))).segments.length : ℤ)
      = (INITIAL_LENGTH : ℤ) + grownSnake.growth_pending :=
  ⟨grownSnake_segments_eq, by rw [grownSnake_growth_pending]; norm_num,
    grownSnake_target_far,
    C9_one_tick_reaches_target_length grownSnake 0 (700, 300) (400, 300) _
      grownSnake_segments_eq (by rw [grownSnake_growth_pending]; norm_num)
      grownSnake_target_far⟩

/-! ## Shared tracking state and the two threads
(`FingerSnakeGame.camera_loop`, `FingerSnakeGame.update_from_shared_state`
and the MENU/GAME_OVER checks in `FingerSnakeGame.run`)

Interleaving model.  The camera thread publishes each
`(shared_finger_pos, shared_finger_detected)` pair inside a
`with self.frame_lock` block as two separate field writes.  The
simulation thread's `update_from_shared_state` copies both fields
inside its own `with self.frame_lock` block (the locked read).  The
MENU/GAME_OVER branch of `run` then evaluates
`self.finger_detected and self.shared_finger_pos is not None`, which
reads `shared_finger_pos` again WITHOUT holding the lock and pairs it
with the previously copied `finger_detected` flag (the unlocked menu
read).  Each primitive step (acquire, one field write, one field read,
release) is atomic, as single attribute accesses are under the Python
GIL; a thread scheduled while blocked on the lock makes no progress. -/

/-- A `(shared_finger_pos, shared_finger_detected)` value. -/
abbrev SharedPair := Option Px × Bool

/-- Lock holder. -/
inductive Holder
  | camera
  | sim
deriving DecidableEq

/-- Program counter of the camera thread, carrying the values it still
has to publish.  One publish is: acquire `frame_lock`; write
`shared_finger_pos`; write `shared_finger_detected`; release.  (The
overlay fields written in the same critical section do not feed the
claim and are omitted.) -/
inductive CameraPC
  | idle (pubs : List SharedPair)
  | acquired (p : SharedPair) (pubs : List SharedPair)
  | wrotePos (p : SharedPair) (pubs : List SharedPair)
  | wroteDet (pubs : List SharedPair)
deriving DecidableEq

/-- Program counter of the simulation thread.  One loop iteration is:
acquire; read `shared_finger_pos`; read `shared_finger_detected`
(completing the locked pair of `update_from_shared_state`); release;
then the unlocked MENU/GAME_OVER re-read of `shared_finger_pos`. -/
inductive SimPC
  | idle
  | acquired
  | gotPos (tp : Option Px)
  | gotBoth (td : Bool)
  | menuCheck (td : Bool)
deriving DecidableEq

/-- Global state of the two-thread system, with the history of pairs
observed by the simulation thread. -/
structure SharedSys where
  sharedPos : Option Px
  sharedDet : Bool
  lock : Option Holder
  cam : CameraPC
  sim : SimPC
  lockedReads : List SharedPair
  menuReads : List (Bool × Option Px)
deriving DecidableEq

/-- One atomic step of the camera thread. -/
def camStep (s : SharedSys) : SharedSys :=
  match s.cam with
  | .idle [] => s
  | .idle (p :: pubs) =>
    match s.lock with
    | none => { s with lock := some .camera, cam := .acquired p pubs }
    | some _ => s
  | .acquired p pubs => { s with sharedPos := p.1, cam := .wrotePos p pubs }
  | .wrotePos p pubs => { s with sharedDet := p.2, cam := .wroteDet pubs }
  | .wroteDet pubs => { s with lock := none, cam := .idle pubs }

/-- One atomic step of the simulation thread. -/
def simStep (s : SharedSys) : SharedSys :=
  match s.sim with
  | .idle =>
    match s.lock with
    | none => { s with lock := some .sim, sim := .acquired }
    | some _ => s
  | .acquired => { s with sim := .gotPos s.sharedPos }
  | .gotPos tp =>
    { s with sim := .gotBoth s.sharedDet,
             lockedReads := (tp, s.sharedDet) :: s.lockedReads }
  | .gotBoth td => { s with lock := none, sim := .menuCheck td }
  | .menuCheck td =>
    { s with menuReads := (td, s.sharedPos) :: s.menuReads, sim := .idle }

/-- Step of whichever thread the scheduler picked. -/
def schedStep (s : SharedSys) (who : Holder) : SharedSys :=
  match who with
  | .camera => camStep s
  | .sim => simStep s

/-- Startup state (`__init__`: `shared_finger_pos = None`,
`shared_finger_detected = False`, lock free), with the camera thread
about to publish `pubs` in order. -/
def initShared (pubs : List SharedPair) : SharedSys :=
  { sharedPos := none, sharedDet := false, lock := none,
    cam := .idle pubs, sim := .idle, lockedReads := [], menuReads := [] }

/-- Run the system under an arbitrary schedule. -/
def runShared (pubs : List SharedPair) (sched : List Holder) : SharedSys :=
  sched.foldl schedStep (initShared pubs)

/-- A pair is consistent if it is the startup value or one of the pairs
published by a single camera-thread publish. -/
def PublishedPair (pubs : List SharedPair) (q : SharedPair) : Prop :=
  q = (none, false) ∨ q ∈ pubs

/-- All `(position, detected)` pairs the simulation loop observes:
the locked pairs of `update_from_shared_state` and the pairs the
MENU/GAME_OVER check effectively uses (its unlocked `shared_finger_pos`
re-read combined with the copied `finger_detected` flag). -/
def simObservedPairs (s : SharedSys) : List SharedPair :=
  s.lockedReads ++ s.menuReads.map fun r => (r.2, r.1)

/-- The camera thread is inside its critical section. -/
def CamCS : CameraPC → Prop
  | .idle _ => False
  | .acquired _ _ => True
  | .wrotePos _ _ => True
  | .wroteDet _ => True

/-- The camera thread has written the position but not yet the flag
(the shared pair is torn right now). -/
def CamDirty : CameraPC → Prop
  | .wrotePos _ _ => True
  | _ => False

/-- The simulation thread is inside its critical section. -/
def SimCS : SimPC → Prop
  | .idle => False
  | .acquired => True
  | .gotPos _ => True
  | .gotBoth _ => True
  | .menuCheck _ => False

/-- The camera thread only ever publishes values from `pubs`. -/
def CamOK (pubs : List SharedPair) : CameraPC → Prop
  | .idle rest => rest ⊆ pubs
  | .acquired p rest => p ∈ pubs ∧ rest ⊆ pubs
  | .wrotePos p rest => p ∈ pubs ∧ rest ⊆ pubs
  | .wroteDet rest => rest ⊆ pubs

/-- Global invariant: the lock field matches the critical sections
(mutual exclusion), published values come from `pubs`, the shared pair
is consistent except while the camera thread is mid-write, a pending
locked read saw the current position, and every completed locked read
is consistent. -/
def SharedInv (pubs : List SharedPair) (s : SharedSys) : Prop :=
  (CamCS s.cam ↔ s.lock = some Holder.camera) ∧
  (SimCS s.sim ↔ s.lock = some Holder.sim) ∧
  CamOK pubs s.cam ∧
  (∀ p rest, s.cam = CameraPC.wrotePos p rest → s.sharedPos = p.1 ∧ p ∈ pubs) ∧
  (¬CamDirty s.cam → PublishedPair pubs (s.sharedPos, s.sharedDet)) ∧
  (∀ tp, s.sim = SimPC.gotPos tp → tp = s.sharedPos) ∧
  (∀ q ∈ s.lockedReads, PublishedPair pubs q)

/-- A mid-write camera thread is in its critical section. -/
theorem camDirty_cs (c : CameraPC) (h : CamDirty c) : CamCS c := by
  cases c <;> simp_all [CamDirty, CamCS]

/-- A camera step preserves the global invariant. -/
theorem camStep_inv (pubs : List SharedPair) (s : SharedSys)
    (h : SharedInv pubs s) : SharedInv pubs (camStep s) := by
  obtain ⟨h1, h2, h3, h4, h5, h6, h7⟩ := h
  cases hc : s.cam with
  | idle pubsRem =>
    cases pubsRem with
    | nil =>
      have hstep : camStep s = s := by
        unfold camStep
        rw [hc]
      rw [hstep]
      exact ⟨h1, h2, h3, h4, h5, h6, h7⟩
    | cons p rest =>
      cases hl : s.lock with
      | some w =>
        have hstep : camStep s = s := by
          unfold camStep
          rw [hc, hl]
        rw [hstep]
        exact ⟨h1, h2, h3, h4, h5, h6, h7⟩
      | none =>
        have hstep : camStep s
            = { s with lock := some Holder.camera, cam := CameraPC.acquired p rest } := by
          unfold camStep
          rw [hc, hl]
        rw [hstep]
        rw [hc] at h3
        have hsim_not : ¬SimCS s.sim := by
          rw [hl] at h2
          simpa using h2
        refine ⟨?_, ?_, ?_, ?_, ?_, ?_, ?_⟩
        · exact iff_of_true trivial rfl
        · exact iff_of_false hsim_not (by simp)
        · exact ⟨h3 (List.mem_cons_self p rest), fun x hx => h3 (List.mem_cons_of_mem p hx)⟩
        · intro q r hq
          simp at hq
        · intro _
          exact h5 (by rw [hc]; simp [CamDirty])
        · exact h6
        · exact h7
  | acquired p rest =>
    have hstep : camStep s = { s with sharedPos := p.1, cam := CameraPC.wrotePos p rest } := by
      unfold camStep
      rw [hc]
    rw [hstep]
    have hcam_lock : s.lock = some Holder.camera := h1.mp (by rw [hc]; trivial)
    have hlock_ne : ¬(s.lock = some Holder.sim) := by
      rw [hcam_lock]
      simp
    have hsim_not : ¬SimCS s.sim := fun hs => hlock_ne (h2.mp hs)
    rw [hc] at h3
    refine ⟨?_, ?_, ?_, ?_, ?_, ?_, ?_⟩
    · exact iff_of_true trivial hcam_lock
    · exact iff_of_false hsim_not hlock_ne
    · exact h3
    · intro q r hq
      simp only [CameraPC.wrotePos.injEq] at hq
      exact ⟨by rw [← hq.1], by rw [← hq.1]; exact h3.1⟩
    · intro hnd
      exact absurd trivial hnd
    · intro tp htp
      exact absurd (by rw [htp]; trivial) hsim_not
    · exact h7
  | wrotePos p rest =>
    have hstep : camStep s = { s with sharedDet := p.2, cam := CameraPC.wroteDet rest } := by
      unfold camStep
      rw [hc]
    rw [hstep]
    have hcam_lock : s.lock = some Holder.camera := h1.mp (by rw [hc]; trivial)
    have hlock_ne : ¬(s.lock = some Holder.sim) := by
      rw [hcam_lock]
      simp
    have hsim_not : ¬SimCS s.sim := fun hs => hlock_ne (h2.mp hs)
    obtain ⟨hpos, hp⟩ := h4 p rest hc
    rw [hc] at h3
    refine ⟨?_, ?_, ?_, ?_, ?_, ?_, ?_⟩
    · exact iff_of_true trivial hcam_lock
    · exact iff_of_false hsim_not hlock_ne
    · exact h3.2
    · intro q r hq
      simp at hq
    · intro _
      exact Or.inr (by rw [hpos, Prod.mk.eta]; exact hp)
    · intro tp htp
      exact absurd (by rw [htp]; trivial) hsim_not
    · exact h7
  | wroteDet rest =>
    have hstep : camStep s = { s with lock := none, cam := CameraPC.idle rest } := by
      unfold camStep
      rw [hc]
    rw [hstep]
    have hcam_lock : s.lock = some Holder.camera := h1.mp (by rw [hc]; trivial)
    have hlock_ne : ¬(s.lock = some Holder.sim) := by
      rw [hcam_lock]
      simp
    have hsim_not : ¬SimCS s.sim := fun hs => hlock_ne (h2.mp hs)
    rw [hc] at h3
    refine ⟨?_, ?_, ?_, ?_, ?_, ?_, ?_⟩
    · exact iff_of_false (by simp [CamCS]) (by simp)
    · exact iff_of_false hsim_not (by simp)
    · exact h3
    · intro q r hq
      simp at hq
    · intro _
      exact h5 (by rw [hc]; simp [CamDirty])
    · intro tp htp
      exact absurd (by rw [htp]; trivial) hsim_not
    · exact h7

/-- A simulation step preserves the global invariant. -/
theorem simStep_inv (pubs : List SharedPair) (s : SharedSys)
    (h : SharedInv pubs s) : SharedInv pubs (simStep s) := by
  obtain ⟨h1, h2, h3, h4, h5, h6, h7⟩ := h
  cases hc : s.sim with
  | idle =>
    cases hl : s.lock with
    | some w =>
      have hstep : simStep s = s := by
        unfold simStep
        rw [hc, hl]
      rw [hstep]
      exact ⟨h1, h2, h3, h4, h5, h6, h7⟩
    | none =>
      have hstep : simStep s
          = { s with lock := some Holder.sim, sim := SimPC.acquired } := by
        unfold simStep
        rw [hc, hl]
      rw [hstep]
      have hcam_not : ¬CamCS s.cam := by
        rw [hl] at h1
        simpa using h1
      refine ⟨?_, ?_, ?_, ?_, ?_, ?_, ?_⟩
      · exact iff_of_false hcam_not (by simp)
      · exact iff_of_true trivial rfl
      · exact h3
      · exact h4
      · exact h5
      · intro tp htp
        simp at htp
      · exact h7
  | acquired =>
    have hstep : simStep s = { s with sim := SimPC.gotPos s.sharedPos } := by
      unfold simStep
      rw [hc]
    rw [hstep]
    have hsim_lock : s.lock = some Holder.sim := h2.mp (by rw [hc]; trivial)
    refine ⟨?_, ?_, ?_, ?_, ?_, ?_, ?_⟩
    · exact h1
    · exact iff_of_true trivial hsim_lock
    · exact h3
    · exact h4
    · exact h5
    · intro tp htp
      simp only [SimPC.gotPos.injEq] at htp
      exact htp.symm
    · exact h7
  | gotPos tp =>
    have hstep : simStep s
        = { s with sim := SimPC.gotBoth s.sharedDet,
                   lockedReads := (tp, s.sharedDet) :: s.lockedReads } := by
      unfold simStep
      rw [hc]
    rw [hstep]
    have hsim_lock : s.lock = some Holder.sim := h2.mp (by rw [hc]; trivial)
    have hcam_not : ¬CamCS s.cam := fun hcs => by
      have hco : some Holder.sim = some Holder.camera := hsim_lock.symm.trans (h1.mp hcs)
      simp at hco
    have hclean : ¬CamDirty s.cam := fun hd => hcam_not (camDirty_cs _ hd)
    have htp : tp = s.sharedPos := h6 tp hc
    refine ⟨?_, ?_, ?_, ?_, ?_, ?_, ?_⟩
    · exact h1
    · exact iff_of_true trivial hsim_lock
    · exact h3
    · exact h4
    · exact h5
    · intro u hu
      simp at hu
    · intro q hq
      rcases List.mem_cons.mp hq with hq | hq
      · rw [hq, htp]
        exact h5 hclean
      · exact h7 q hq
  | gotBoth td =>
    have hstep : simStep s = { s with lock := none, sim := SimPC.menuCheck td } := by
      unfold simStep
      rw [hc]
    rw [hstep]
    have hsim_lock : s.lock = some Holder.sim := h2.mp (by rw [hc]; trivial)
    have hcam_not : ¬CamCS s.cam := fun hcs => by
      have hco : some Holder.sim = some Holder.camera := hsim_lock.symm.trans (h1.mp hcs)
      simp at hco
    refine ⟨?_, ?_, ?_, ?_, ?_, ?_, ?_⟩
    · exact iff_of_false hcam_not (by simp)
    · exact iff_of_false (by simp [SimCS]) (by simp)
    · exact h3
    · exact h4
    · exact h5
    · intro tp htp
      simp at htp
    · exact h7
  | menuCheck td =>
    have hstep : simStep s
        = { s with menuReads := (td, s.sharedPos) :: s.menuReads, sim := SimPC.idle } := by
      unfold simStep
      rw [hc]
    rw [hstep]
    have hlock_ne : ¬(s.lock = some Holder.sim) := fun he => by
      rw [hc] at h2
      exact h2.mpr he
    refine ⟨?_, ?_, ?_, ?_, ?_, ?_, ?_⟩
    · exact h1
    · exact iff_of_false (by simp [SimCS]) hlock_ne
    · exact h3
    · exact h4
    · exact h5
    · intro tp htp
      simp at htp
    · exact h7

/-- The global invariant holds in every reachable state, under every
schedule. -/
theorem sharedInv_holds (pubs : List SharedPair) (sched : List Holder) :
    SharedInv pubs (runShared pubs sched) := by
  have hinit : SharedInv pubs (initShared pubs) := by
    refine ⟨?_, ?_, ?_, ?_, ?_, ?_, ?_⟩
    · exact iff_of_false (by simp [CamCS, initShared]) (by simp [initShared])
    · exact iff_of_false (by simp [SimCS, initShared]) (by simp [initShared])
    · exact fun x hx => hx
    · intro q r hq
      simp [initShared] at hq
    · intro _
      exact Or.inl rfl
    · intro tp htp
      simp [initShared] at htp
    · intro q hq
      simp [initShared] at hq
  have hstep : ∀ (l : List Holder) (st : SharedSys), SharedInv pubs st →
      SharedInv pubs (l.foldl schedStep st) := by
    intro l
    induction l with
    | nil => exact fun st hst => hst
    | cons who rest ih =>
      intro st hst
      refine ih (schedStep st who) ?_
      cases who with
      | camera => exact camStep_inv pubs st hst
      | sim => exact simStep_inv pubs st hst
  exact hstep sched (initShared pubs) hinit

/-! ## Claim C8

The locked read of `update_from_shared_state` is indeed always a
consistent pair from a single publish (amended theorem below).  But the
claim as stated — EVERY read of the shared tracking state by the
simulation loop is consistent — fails: the MENU/GAME_OVER checks
(`if self.finger_detected and self.shared_finger_pos is not None:`,
`src/game/utils.py` lines 552 and 674) re-read `shared_finger_pos`
without the lock and combine it with the `finger_detected` flag copied
from an earlier publish, which can pair a newer position with an older
detected flag. -/

instance (pubs : List SharedPair) (q : SharedPair) :
    Decidable (PublishedPair pubs q) := by
  unfold PublishedPair
  infer_instance

/-- C8 counterexample: a concrete interleaving under which the
simulation loop observes the pair `(position = none, detected = true)`
although the camera thread only ever published `(some (1, 1), true)`
and then `(none, false)` (and the startup value is `(none, false)`):
the MENU check combines the detected flag of the first publish with the
position of the second. -/
theorem C8_counterexample_torn_menu_read :
    (((none : Option Px), true) : SharedPair) ∈ simObservedPairs (runShared
        [(some (1, 1), true), (none, false)]
        [Holder.camera, Holder.camera, Holder.camera, Holder.camera,
         Holder.sim, Holder.sim, Holder.sim, Holder.sim,
         Holder.camera, Holder.camera, Holder.camera, Holder.camera,
         Holder.sim]) ∧
      ¬PublishedPair [(some (1, 1), true), (none, false)]
        (((none : Option Px), true) : SharedPair) := by
  decide

/-- C8 amended: every pair obtained by the lock-protected read of
`update_from_shared_state` — under every publish sequence and every
interleaving of the two threads — is the startup value or a pair
written by a single camera-thread publish; the inconsistency is
confined to the unlocked `shared_finger_pos` re-read of the
MENU/GAME_OVER checks. -/
theorem C8_amended_locked_reads_consistent (pubs : List SharedPair)
    (sched : List Holder) (q : SharedPair)
    (hq : q ∈ (runShared pubs sched).lockedReads) :
    PublishedPair pubs q :=
  (sharedInv_holds pubs sched).2.2.2.2.2.2 q hq

/-- Witness for the amended C8 at the counterexample interleaving: the
one locked read it completes is the first published pair. -/
theorem C8_amended_locked_reads_consistent_witness :
    ((some (1, 1), true) : SharedPair) ∈ (runShared
        [(some (1, 1), true), (none, false)]
        [Holder.camera, Holder.camera, Holder.camera, Holder.camera,
         Holder.sim, Holder.sim, Holder.sim, Holder.sim,
         Holder.camera, Holder.camera, Holder.camera, Holder.camera,
         Holder.sim]).lockedReads ∧
    PublishedPair [(some (1, 1), true), (none, false)] ((some (1, 1), true) : SharedPair) :=
  ⟨by decide,
    C8_amended_locked_reads_consistent
      [(some (1, 1), true), (none, false)]
      [Holder.camera, Holder.camera, Holder.camera, Holder.camera,
       Holder.sim, Holder.sim, Holder.sim, Holder.sim,
       Holder.camera, Holder.camera, Holder.camera, Holder.camera,
       Holder.sim]
      (some (1, 1), true) (by decide)⟩

end SnakeGame
